import Mathlib

/-!
Shallow embedding of the granola-mcp-server document-normalization and
remote-fetch core, together with theorems settling the spec claims.

Sources embedded:
  * `src/granola_mcp_server/sources/adapter.py` (`DocumentSourceAdapter`)
  * `src/granola_mcp_server/sources/remote_api.py` (`RemoteApiDocumentSource`)

Python values flowing through the adapter are loosely-typed JSON-like
values; they are modelled by the inductive `JVal`.  Python truthiness,
the `or` operator, `dict.get`, and `str()` are modelled explicitly.
-/

namespace Granola

/-- JSON-like Python value: the payload type of raw documents. -/
inductive JVal where
  | null : JVal
  | bool (b : Bool) : JVal
  | num (n : Int) : JVal
  | str (s : String) : JVal
  | arr (xs : List JVal) : JVal
  | obj (fs : List (String × JVal)) : JVal

/-- Python truthiness of a `JVal` (`bool(x)`): `None`, `False`, `0`, `""`,
`[]` and `{}` are falsy, everything else truthy. -/
def truthy : JVal → Bool
  | .null => false
  | .bool b => b
  | .num n => n != 0
  | .str s => !s.isEmpty
  | .arr xs => !xs.isEmpty
  | .obj fs => !fs.isEmpty

/-- Python `a or b`: `a` when truthy, else `b`. -/
def pyOr (a b : JVal) : JVal := if truthy a then a else b

/-- Python `d.get(k, default)` on a dict value; non-dict receivers do not
occur on the embedded code paths (every call site is guarded by an
`isinstance(_, dict)` check). -/
def jgetD (v : JVal) (k : String) (dflt : JVal) : JVal :=
  match v with
  | .obj fs => (fs.lookup k).getD dflt
  | _ => dflt

/-- Python `d.get(k)` (default `None`). -/
def jget (v : JVal) (k : String) : JVal := jgetD v k .null

/-- Does the value equal (Python `==`) the given Python `str`?  Only a
`JVal.str` can compare equal to a string. -/
def jvalEqStr (v : JVal) (s : String) : Bool :=
  match v with
  | .str t => t == s
  | _ => false

mutual
/-- Python `repr` of a value (string escaping simplified to plain
quoting; the embedded claims only exercise `repr`/`str` on strings and
numbers). -/
def pyRepr : JVal → String
  | .null => "None"
  | .bool b => if b then "True" else "False"
  | .num n => toString n
  | .str s => "'" ++ s ++ "'"
  | .arr xs => "[" ++ String.intercalate ", " (pyReprList xs) ++ "]"
  | .obj fs => "\x7b" ++ String.intercalate ", " (pyReprFields fs) ++ "\x7d"

def pyReprList : List JVal → List String
  | [] => []
  | x :: xs => pyRepr x :: pyReprList xs

def pyReprFields : List (String × JVal) → List String
  | [] => []
  | (k, v) :: fs => ("'" ++ k ++ "': " ++ pyRepr v) :: pyReprFields fs
end

/-- Python `str(x)`: identical to `repr(x)` for every non-string value
appearing here; the identity on strings. -/
def pyStr : JVal → String
  | .str s => s
  | v => pyRepr v

/-! ## The canonical Meeting record (`MeetingDict`)

Fields exactly as built by `DocumentSourceAdapter.get_meetings`
(adapter.py lines 135-147).  `title` stays a raw value because the
Python code stores whatever `doc.get("title")` yielded when truthy. -/

structure Meeting where
  id : String
  title : JVal
  start_ts : String
  end_ts : Option String
  participants : List String
  platform : Option String
  notes : Option String
  overview : Option String
  summary : Option String
  folder_id : Option String
  folder_name : Option String

/-- `doc.get(f) if isinstance(doc.get(f), str) else None`. -/
def asStr (v : JVal) : Option String :=
  match v with
  | .str s => some s
  | _ => none

/-- adapter.py lines 101-104: `start_ts = doc.get("created_at") or
doc.get("start_ts") or ""`, then `str(start_ts) if start_ts else ""`
when the result is not already a string. -/
def extractStartTs (doc : JVal) : String :=
  let v := pyOr (jget doc "created_at") (pyOr (jget doc "start_ts") (.str ""))
  match v with
  | .str s => s
  | v' => if truthy v' then pyStr v' else ""

/-- Membership test `att_name not in participants` (negated): the raw
value is compared by Python `==` against a list of strings, so only a
string value can match. -/
def jvalMemStrList (v : JVal) (l : List String) : Bool :=
  match v with
  | .str s => l.contains s
  | _ => false

/-- adapter.py lines 106-123: participants extraction from the `people`
field.  Only the structured-object shape (`creator`/`attendees`) is
handled; any other shape (including a flat list) yields `[]`. -/
def extractParticipants (people : JVal) : List String :=
  match people with
  | .obj _ =>
    let creator := jgetD people "creator" (.obj [])
    let base : List String :=
      match creator with
      | .obj _ =>
        let creatorName := pyOr (jget creator "name") (jget creator "email")
        if truthy creatorName then [pyStr creatorName] else []
      | _ => []
    let attendees := jgetD people "attendees" (.arr [])
    match attendees with
    | .arr atts =>
      atts.foldl (fun acc att =>
        match att with
        | .obj _ =>
          let attName := pyOr (jget att "name") (jget att "email")
          if truthy attName && !jvalMemStrList attName acc then
            acc ++ [pyStr attName]
          else acc
        | _ => acc) base
    | _ => base
  | _ => []

/-- adapter.py lines 125-133 and 142: `notes = doc.get("notes_plain") or
doc.get("notes_markdown") or doc.get("notes")`; a dict result is set to
`None`; the final value is kept only when it is a string. -/
def extractNotes (doc : JVal) : Option String :=
  let v := pyOr (jget doc "notes_plain") (pyOr (jget doc "notes_markdown") (jget doc "notes"))
  let v2 := match v with
    | .obj _ => JVal.null
    | x => x
  asStr v2

/-- adapter.py lines 89-149: the body of the per-document loop of
`get_meetings`.  Returns `none` exactly when the Python loop `continue`s
(non-dict document, or truthy `type` different from `"meeting"`). -/
def normalizeDoc (docKey : String) (doc : JVal) : Option Meeting :=
  match doc with
  | .obj _ =>
    let docType := jget doc "type"
    if truthy docType && !jvalEqStr docType "meeting" then none
    else
      let meetingId := pyStr (pyOr (jget doc "id") (.str docKey))
      let title := pyOr (jget doc "title") (.str "Untitled Meeting")
      some
        { id := meetingId
          title := title
          start_ts := extractStartTs doc
          end_ts := none
          participants := extractParticipants (jget doc "people")
          platform := none
          notes := extractNotes doc
          overview := asStr (jget doc "overview")
          summary := asStr (jget doc "summary")
          folder_id := none
          folder_name := none }
  | _ => none

/-- Insertion into a Python dict: an existing key is overwritten in
place (keeping its position), a new key is appended. -/
def dictInsert (m : List (String × JVal)) (k : String) (v : JVal) : List (String × JVal) :=
  if m.any (fun p => p.1 == k) then
    m.map (fun p => if p.1 == k then (k, v) else p)
  else m ++ [(k, v)]

/-- One iteration of the `load_cache` document loop (adapter.py lines
49-53): a dict document with a truthy `id` is stored under key
`str(doc_id)`; everything else is dropped. -/
def loadStep (acc : List (String × JVal)) (doc : JVal) : List (String × JVal) :=
  match doc with
  | .obj _ =>
    let docId := jget doc "id"
    if truthy docId then dictInsert acc (pyStr docId) doc else acc
  | _ => acc

/-- adapter.py lines 47-53 (`load_cache`): build `documents_dict` from the
source's document list. -/
def loadDocs (src : List JVal) : List (String × JVal) :=
  src.foldl loadStep []

/-- The meeting list before sorting: the per-document loop of
`get_meetings` over the documents dict, in dict iteration order. -/
def rawMeetings (docs : List (String × JVal)) : List Meeting :=
  docs.filterMap (fun kd => normalizeDoc kd.1 kd.2)

/-- Lexicographic strict comparison of character lists, mirroring
Python's code-point comparison of `str` values. -/
def charListLt : List Char → List Char → Bool
  | [], [] => false
  | [], _ :: _ => true
  | _ :: _, [] => false
  | c :: cs, d :: ds => if c < d then true else if d < c then false else charListLt cs ds

/-- Python `a < b` on strings. -/
def strLt (a b : String) : Bool := charListLt a.data b.data

/-- One step of a stable descending insertion sort: `x` is placed before
the first element whose key is strictly smaller, hence after every
earlier element with an equal or larger key. -/
def insDesc (key : Meeting → String) (x : Meeting) : List Meeting → List Meeting
  | [] => [x]
  | y :: ys => if strLt (key y) (key x) then x :: y :: ys else y :: insDesc key x ys

/-- Stable descending sort, modelling Python's stable
`list.sort(key=..., reverse=True)` (adapter.py line 152; the sort key
`x.get("start_ts") or ""` equals `start_ts`, which is always a string). -/
def sortDesc (key : Meeting → String) (l : List Meeting) : List Meeting :=
  l.foldl (fun acc x => insDesc key x acc) []

/-- adapter.py `get_meetings` over an already-loaded documents dict. -/
def getMeetingsDocs (docs : List (String × JVal)) : List Meeting :=
  sortDesc (fun m => m.start_ts) (rawMeetings docs)

/-- The full adapter pipeline: `load_cache` over the source's document
list followed by `get_meetings`. -/
def adapterGetMeetings (src : List JVal) : List Meeting :=
  getMeetingsDocs (loadDocs src)

/-! ## Remote API source (`remote_api.py`)

`_fetch_from_api` is modelled over an oracle `resp : Nat → HttpResp`
giving the HTTP layer's response to the attempt-numbered request;
`time.sleep` is modelled by recording the slept seconds. -/

/-- Outcome of one HTTP attempt: a parsed JSON body, a body that fails
JSON parsing, an `HTTPError` with a status code, or a `URLError`. -/
inductive HttpResp where
  | ok (data : JVal) : HttpResp
  | badBody : HttpResp
  | err (code : Nat) : HttpResp
  | netErr : HttpResp

/-- The typed errors `_fetch_from_api` / `get_documents` raise
(`GranolaParseError` with distinguishing context in the source). -/
inductive FetchError where
  | parse (attempt : Nat) : FetchError
  | auth (code : Nat) : FetchError
  | rateLimit (attempt : Nat) : FetchError
  | server (code : Nat) (attempt : Nat) : FetchError
  | http (code : Nat) : FetchError
  | network (attempt : Nat) : FetchError
  | invalidDocs : FetchError
  | maxRetries : FetchError
deriving DecidableEq

/-- Observable behaviour of one `_fetch_from_api` call: the returned
data or raised error, the number of attempts issued, and the seconds
slept between attempts, in order. -/
structure FetchTrace where
  result : Except FetchError JVal
  attempts : Nat
  sleeps : List Nat

/-- Backoff before the next attempt: `(2 ** attempt) * 1.0` seconds. -/
def backoff (attempt : Nat) : Nat := 2 ^ attempt

/-- remote_api.py lines 130-213: the retry loop of `_fetch_from_api`.
`attempt` is the 0-based loop counter, `fuel` the remaining iterations
of `range(max_retries)`; `maxRetries = 3`. -/
def fetchGo (resp : Nat → HttpResp) (maxRetries : Nat) : Nat → Nat → FetchTrace
  | attempt, 0 => { result := .error .maxRetries, attempts := attempt, sleeps := [] }
  | attempt, fuel + 1 =>
    match resp attempt with
    | .ok data => { result := .ok data, attempts := attempt + 1, sleeps := [] }
    | .badBody => { result := .error (.parse (attempt + 1)), attempts := attempt + 1, sleeps := [] }
    | .netErr =>
      if attempt < maxRetries - 1 then
        let t := fetchGo resp maxRetries (attempt + 1) fuel
        { t with sleeps := backoff attempt :: t.sleeps }
      else { result := .error (.network (attempt + 1)), attempts := attempt + 1, sleeps := [] }
    | .err code =>
      if code == 401 then
        { result := .error (.auth 401), attempts := attempt + 1, sleeps := [] }
      else if code == 403 then
        { result := .error (.auth 403), attempts := attempt + 1, sleeps := [] }
      else if code == 429 then
        if attempt < maxRetries - 1 then
          let t := fetchGo resp maxRetries (attempt + 1) fuel
          { t with sleeps := backoff attempt :: t.sleeps }
        else { result := .error (.rateLimit (attempt + 1)), attempts := attempt + 1, sleeps := [] }
      else if 500 ≤ code && code < 600 then
        if attempt < maxRetries - 1 then
          let t := fetchGo resp maxRetries (attempt + 1) fuel
          { t with sleeps := backoff attempt :: t.sleeps }
        else { result := .error (.server code (attempt + 1)), attempts := attempt + 1, sleeps := [] }
      else { result := .error (.http code), attempts := attempt + 1, sleeps := [] }

/-- `_fetch_from_api` with `max_retries = 3`. -/
def fetchFromApi (resp : Nat → HttpResp) : FetchTrace := fetchGo resp 3 0 3

/-! ### `get_documents` cache policy -/

/-- An on-disk cache file: its modification time and its parsed JSON
content (`none` models an unreadable or unparseable file). -/
structure CacheFile where
  mtime : Int
  content : Option JVal

/-- remote_api.py lines 71-77 (`_is_cache_fresh`): the file exists and
its age `now - mtime` is strictly below the TTL. -/
def isCacheFresh (ttl now : Int) (file : Option CacheFile) : Bool :=
  match file with
  | none => false
  | some f => now - f.mtime < ttl

/-- remote_api.py lines 57-65: the cache key is a collision-free
fingerprint of `(limit, offset, include_last_viewed_panel)`; the SHA-256
hash is modelled by the parameter triple itself. -/
def cacheKey (limit offset : Int) (panel : Bool) : Int × Int × Bool :=
  (limit, offset, panel)

/-- Result of one `get_documents` call: the returned docs (or raised
error), whether an HTTP fetch was issued, and the cache file written
(unchanged cache modelled by returning the consulted file). -/
structure GetDocsOutcome where
  result : Except FetchError (List JVal)
  httpIssued : Bool
  newFile : Option CacheFile

/-- remote_api.py lines 248-261: fetch from the API, persist the raw
response, extract `docs` (raising when it is not a list).  The write is
best-effort in the source; the successful write is modelled. -/
def fetchAndCache (now : Int) (api : JVal) : GetDocsOutcome :=
  let written : Option CacheFile := some { mtime := now, content := some api }
  match jgetD api "docs" (.arr []) with
  | .arr ds => { result := .ok ds, httpIssued := true, newFile := written }
  | _ => { result := .error .invalidDocs, httpIssued := true, newFile := written }

/-- remote_api.py line 234: `limit = limit or 100` (`None` and falsy `0`
both become 100). -/
def normLimit : Option Int → Int
  | some x => if x == 0 then 100 else x
  | none => 100

/-- remote_api.py line 235: `offset = offset or 0`. -/
def normOffset : Option Int → Int
  | some x => if x == 0 then 0 else x
  | none => 0

/-- remote_api.py lines 215-261 (`get_documents`): parameter
normalization (`limit or 100`, `offset or 0`), cache lookup and
freshness check, fall-through to an HTTP fetch when the cache misses, is
stale, is unreadable, or holds no list-typed `docs`.  `store` maps cache
keys to the cache files on disk; `api` is the body the HTTP layer would
return. -/
def getDocuments (ttl now : Int) (store : Int × Int × Bool → Option CacheFile)
    (limit offset : Option Int) (panel : Bool) (force : Bool) (api : JVal) :
    GetDocsOutcome :=
  let l : Int := normLimit limit
  let o : Int := normOffset offset
  let file := store (cacheKey l o panel)
  if !force && isCacheFresh ttl now file then
    match file with
    | some f =>
      match f.content with
      | some cached =>
        match jgetD cached "docs" (.arr []) with
        | .arr ds => { result := .ok ds, httpIssued := false, newFile := file }
        | _ => fetchAndCache now api
      | none => fetchAndCache now api
    | none => fetchAndCache now api
  else fetchAndCache now api

/-! ### `get_all_documents` pagination -/

/-- remote_api.py lines 263-306: the pagination loop.  `fetch offset` is
the page `get_documents(limit=100, offset=offset, ...)` returns; `fuel`
bounds the number of iterations (the Python loop runs until a short or
empty page). -/
def getAllDocsLoop (fetch : Nat → List JVal) : Nat → Nat → List JVal → Option (List JVal)
  | 0, _, _ => none
  | fuel + 1, offset, acc =>
    let batch := fetch offset
    if batch.isEmpty then some acc
    else
      let acc' := acc ++ batch
      if batch.length < 100 then some acc'
      else getAllDocsLoop fetch fuel (offset + 100) acc'

/-- `get_all_documents`: loop from offset 0 with batch size 100. -/
def getAllDocuments (fetch : Nat → List JVal) (fuel : Nat) : Option (List JVal) :=
  getAllDocsLoop fetch fuel 0 []

/-! ## Spec-side definitions

Definitions written from the (amended) spec wording, to be compared with
the embedded code. -/

/-- Spec-side inclusion rule (amended): a document contributes a Meeting
exactly when it is a mapping and its `type` field is absent, falsy
(e.g. the empty string), or equal to the string `"meeting"`. -/
def specMeetingIncluded (doc : JVal) : Bool :=
  (match doc with | .obj _ => true | _ => false) &&
  (!truthy (jget doc "type") || jvalEqStr (jget doc "type") "meeting")

/-- Spec-side notes rule (amended): take the first truthy candidate
among `notes_plain`, `notes_markdown`, `notes` (falling back to the raw
`notes` value when all are falsy); keep it only when it is a plain
string, else the notes are absent. -/
def amendedNotesSpec (doc : JVal) : Option String :=
  let v :=
    if truthy (jget doc "notes_plain") then jget doc "notes_plain"
    else if truthy (jget doc "notes_markdown") then jget doc "notes_markdown"
    else jget doc "notes"
  match v with
  | .str s => some s
  | _ => none

/-! ## Lemmas about the lexicographic comparison -/

theorem charListLt_irrefl : ∀ cs, charListLt cs cs = false := by
  intro cs
  induction cs with
  | nil => rfl
  | cons c cs ih => simp [charListLt, ih]

theorem charListLt_trans :
    ∀ as bs cs, charListLt as bs = true → charListLt bs cs = true →
      charListLt as cs = true := by
  intro as
  induction as with
  | nil =>
    intro bs cs h1 h2
    cases bs with
    | nil => simp [charListLt] at h1
    | cons b bs =>
      cases cs with
      | nil => simp [charListLt] at h2
      | cons c cs => rfl
  | cons a as ih =>
    intro bs cs h1 h2
    cases bs with
    | nil => simp [charListLt] at h1
    | cons b bs =>
      cases cs with
      | nil => simp [charListLt] at h2
      | cons c cs =>
        simp only [charListLt] at h1 h2 ⊢
        by_cases hab : a < b
        · by_cases hbc : b < c
          · simp [lt_trans hab hbc]
          · by_cases hcb : c < b
            · simp [hbc, hcb] at h2
            · have hbc' : b = c := le_antisymm (not_lt.mp hcb) (not_lt.mp hbc)
              simp [hbc' ▸ hab]
        · by_cases hba : b < a
          · simp [hab, hba] at h1
          · have hab' : a = b := le_antisymm (not_lt.mp hba) (not_lt.mp hab)
            subst hab'
            simp only [lt_irrefl, if_false] at h1 ⊢
            by_cases hac : a < c
            · simp [hac]
            · by_cases hca : c < a
              · simp [hac, hca] at h2
              · simp only [hac, hca, if_false] at h2 ⊢
                exact ih bs cs h1 h2

theorem charListLt_asymm {as bs : List Char} (h : charListLt as bs = true) :
    charListLt bs as = false := by
  cases hba : charListLt bs as with
  | false => rfl
  | true =>
    have := charListLt_trans as bs as h hba
    rw [charListLt_irrefl] at this
    exact absurd this (by simp)

theorem strLt_irrefl (a : String) : strLt a a = false := charListLt_irrefl a.data

theorem strLt_trans {a b c : String} (h1 : strLt a b = true) (h2 : strLt b c = true) :
    strLt a c = true := charListLt_trans a.data b.data c.data h1 h2

theorem strLt_asymm {a b : String} (h : strLt a b = true) : strLt b a = false :=
  charListLt_asymm h

theorem charListLt_eq_true_iff : ∀ cs ds : List Char, charListLt cs ds = true ↔ cs < ds := by
  intro cs
  induction cs with
  | nil =>
    intro ds
    cases ds with
    | nil =>
      simp only [charListLt, Bool.false_eq_true, false_iff]
      intro h
      cases h
    | cons d ds =>
      simp only [charListLt, true_iff]
      exact List.Lex.nil
  | cons c cs ih =>
    intro ds
    cases ds with
    | nil =>
      simp only [charListLt, Bool.false_eq_true, false_iff]
      intro h
      cases h
    | cons d ds =>
      simp only [charListLt]
      by_cases hcd : c < d
      · simp only [hcd, if_true, true_iff]
        exact List.Lex.rel hcd
      · by_cases hdc : d < c
        · simp only [hcd, hdc, if_true, if_false, Bool.false_eq_true, false_iff]
          intro h
          cases h with
          | cons h => exact absurd hdc (lt_irrefl _)
          | rel h => exact absurd h hcd
        · have hcd' : c = d := le_antisymm (not_lt.mp hdc) (not_lt.mp hcd)
          subst hcd'
          simp only [lt_irrefl, if_false]
          rw [ih ds]
          constructor
          · intro h
            exact List.Lex.cons h
          · intro h
            cases h with
            | cons h => exact h
            | rel h => exact absurd h (lt_irrefl c)

/-- `strLt` agrees with Mathlib's linear order on `String` (both are the
lexicographic code-point order). -/
theorem strLt_iff_lt (a b : String) : strLt a b = true ↔ a < b := by
  rw [String.lt_iff_toList_lt]
  exact charListLt_eq_true_iff a.data b.data

theorem strLt_false_iff_le (a b : String) : strLt a b = false ↔ b ≤ a := by
  rw [← Bool.not_eq_true, strLt_iff_lt]
  exact not_lt

/-! ## Lemmas about the stable descending sort -/

theorem mem_insDesc (key : Meeting → String) (x : Meeting) :
    ∀ l z, z ∈ insDesc key x l ↔ z = x ∨ z ∈ l := by
  intro l
  induction l with
  | nil => intro z; simp [insDesc]
  | cons y ys ih =>
    intro z
    cases h : strLt (key y) (key x)
    · simp [insDesc, h, List.mem_cons, ih]
      tauto
    · simp [insDesc, h, List.mem_cons]

theorem sorted_insDesc (key : Meeting → String) (x : Meeting) :
    ∀ l, List.Pairwise (fun a b => strLt (key a) (key b) = false) l →
      List.Pairwise (fun a b => strLt (key a) (key b) = false) (insDesc key x l) := by
  intro l
  induction l with
  | nil => intro _; simp [insDesc]
  | cons y ys ih =>
    intro h
    rw [List.pairwise_cons] at h
    obtain ⟨hy, hs⟩ := h
    cases hlt : strLt (key y) (key x) with
    | true =>
      rw [insDesc]
      simp only [hlt, if_true]
      rw [List.pairwise_cons]
      constructor
      · intro z hz
        rcases List.mem_cons.mp hz with hz | hz
        · exact hz ▸ strLt_asymm hlt
        · cases hxz : strLt (key x) (key z) with
          | false => rfl
          | true => exact absurd (strLt_trans hlt hxz) (by simp [hy z hz])
      · exact List.pairwise_cons.mpr ⟨hy, hs⟩
    | false =>
      rw [insDesc]
      simp only [hlt, Bool.false_eq_true, if_false]
      rw [List.pairwise_cons]
      constructor
      · intro z hz
        rcases (mem_insDesc key x ys z).mp hz with hz | hz
        · exact hz ▸ hlt
        · exact hy z hz
      · exact ih hs

theorem length_insDesc (key : Meeting → String) (x : Meeting) :
    ∀ l, (insDesc key x l).length = l.length + 1 := by
  intro l
  induction l with
  | nil => rfl
  | cons y ys ih =>
    cases h : strLt (key y) (key x) <;> simp [insDesc, h, ih]

theorem filter_insDesc (key : Meeting → String) (x : Meeting) (k : String) :
    ∀ l, List.Pairwise (fun a b => strLt (key a) (key b) = false) l →
      (insDesc key x l).filter (fun y => key y == k) =
        if key x == k then l.filter (fun y => key y == k) ++ [x]
        else l.filter (fun y => key y == k) := by
  intro l
  induction l with
  | nil =>
    intro _
    by_cases hk : key x == k <;> simp [insDesc, List.filter, hk]
  | cons y ys ih =>
    intro h
    rw [List.pairwise_cons] at h
    obtain ⟨hy, hs⟩ := h
    cases hlt : strLt (key y) (key x) with
    | true =>
      rw [insDesc]
      simp only [hlt, if_true]
      by_cases hk : key x == k
      · have hxk : key x = k := eq_of_beq hk
        have hnil : (y :: ys).filter (fun z => key z == k) = [] := by
          rw [List.filter_eq_nil_iff]
          intro z hz
          simp only [beq_iff_eq]
          intro hzk
          have hzx : key z = key x := hzk.trans hxk.symm
          rcases List.mem_cons.mp hz with hz | hz
          · rw [← hz, hzx] at hlt
            rw [strLt_irrefl] at hlt
            simp at hlt
          · have hy' := hy z hz
            rw [hzx] at hy'
            rw [hy'] at hlt
            simp at hlt
        simp [hk, List.filter_cons, hnil]
      · simp [hk, List.filter_cons]
    | false =>
      rw [insDesc]
      simp only [hlt, Bool.false_eq_true, if_false]
      rw [List.filter_cons, List.filter_cons, ih hs]
      by_cases hyk : key y == k <;> by_cases hxk : key x == k <;>
        simp [hyk, hxk]

theorem sorted_sortDesc_aux (key : Meeting → String) :
    ∀ (l acc : List Meeting),
      List.Pairwise (fun a b => strLt (key a) (key b) = false) acc →
      List.Pairwise (fun a b => strLt (key a) (key b) = false)
        (l.foldl (fun a x => insDesc key x a) acc) := by
  intro l
  induction l with
  | nil => intro acc h; simpa using h
  | cons x xs ih =>
    intro acc h
    exact ih (insDesc key x acc) (sorted_insDesc key x acc h)

/-- The sorted list is descending in the sort key (with respect to the
standard lexicographic order on `String`). -/
theorem sorted_sortDesc (key : Meeting → String) (l : List Meeting) :
    List.Pairwise (fun a b => key b ≤ key a) (sortDesc key l) := by
  have h := sorted_sortDesc_aux key l [] List.Pairwise.nil
  exact h.imp (fun hab => (strLt_false_iff_le _ _).mp hab)

theorem filter_sortDesc_aux (key : Meeting → String) (k : String) :
    ∀ (l acc : List Meeting),
      List.Pairwise (fun a b => strLt (key a) (key b) = false) acc →
      (l.foldl (fun a x => insDesc key x a) acc).filter (fun y => key y == k) =
        acc.filter (fun y => key y == k) ++ l.filter (fun y => key y == k) := by
  intro l
  induction l with
  | nil => intro acc _; simp
  | cons x xs ih =>
    intro acc h
    rw [List.foldl_cons, ih (insDesc key x acc) (sorted_insDesc key x acc h),
      filter_insDesc key x k acc h, List.filter_cons]
    by_cases hxk : key x == k <;> simp [hxk]

/-- Stability of the sort: for every key value, the sorted list contains
exactly the same elements with that key, in the same relative order, as
the input list. -/
theorem filter_sortDesc (key : Meeting → String) (k : String) (l : List Meeting) :
    (sortDesc key l).filter (fun y => key y == k) = l.filter (fun y => key y == k) :=
  filter_sortDesc_aux key k l [] List.Pairwise.nil

theorem length_sortDesc_aux (key : Meeting → String) :
    ∀ (l acc : List Meeting),
      (l.foldl (fun a x => insDesc key x a) acc).length = acc.length + l.length := by
  intro l
  induction l with
  | nil => intro acc; simp
  | cons x xs ih =>
    intro acc
    rw [List.foldl_cons, ih (insDesc key x acc), length_insDesc]
    simp only [List.length_cons]
    omega

theorem length_sortDesc (key : Meeting → String) (l : List Meeting) :
    (sortDesc key l).length = l.length := by
  simpa using length_sortDesc_aux key l []

theorem mem_sortDesc_aux (key : Meeting → String) (z : Meeting) :
    ∀ (l acc : List Meeting),
      z ∈ l.foldl (fun a x => insDesc key x a) acc ↔ z ∈ acc ∨ z ∈ l := by
  intro l
  induction l with
  | nil => intro acc; simp
  | cons x xs ih =>
    intro acc
    rw [List.foldl_cons, ih (insDesc key x acc), mem_insDesc]
    simp [List.mem_cons]
    tauto

theorem mem_sortDesc (key : Meeting → String) (z : Meeting) (l : List Meeting) :
    z ∈ sortDesc key l ↔ z ∈ l := by
  rw [sortDesc, mem_sortDesc_aux]
  simp
/-! ## Lemmas about normalization -/

theorem length_filterMap_eq_countP {α β : Type} (f : α → Option β) (l : List α) :
    (l.filterMap f).length = l.countP (fun a => (f a).isSome) := by
  induction l with
  | nil => simp
  | cons x xs ih =>
    by_cases h : (f x).isSome <;>
      simp [List.filterMap_cons, List.countP_cons, h, ih] <;>
      cases hfx : f x <;> simp_all

theorem normalizeDoc_isSome (k : String) (d : JVal) :
    (normalizeDoc k d).isSome = specMeetingIncluded d := by
  cases d with
  | obj fs =>
    cases ht : truthy (jget (JVal.obj fs) "type") <;>
      cases he : jvalEqStr (jget (JVal.obj fs) "type") "meeting" <;>
        simp [normalizeDoc, specMeetingIncluded, ht, he]
  | null => simp [normalizeDoc, specMeetingIncluded]
  | bool b => simp [normalizeDoc, specMeetingIncluded]
  | num n => simp [normalizeDoc, specMeetingIncluded]
  | str s => simp [normalizeDoc, specMeetingIncluded]
  | arr xs => simp [normalizeDoc, specMeetingIncluded]

/-- Shape of every meeting produced by the per-document normalization:
the id comes from `str(doc.get("id") or doc_key)`, the notes from the
notes chain, and the four side-table-derived fields are the literal
`None`s of adapter.py lines 139-146. -/
theorem normalizeDoc_some {k : String} {d : JVal} {m : Meeting}
    (h : normalizeDoc k d = some m) :
    m.id = pyStr (pyOr (jget d "id") (.str k)) ∧
    m.notes = extractNotes d ∧
    m.end_ts = none ∧ m.platform = none ∧
    m.folder_id = none ∧ m.folder_name = none := by
  cases d with
  | obj fs =>
    rw [normalizeDoc] at h
    by_cases hc : (truthy (jget (JVal.obj fs) "type") &&
        !jvalEqStr (jget (JVal.obj fs) "type") "meeting") = true
    · simp [hc] at h
    · rw [Bool.not_eq_true] at hc
      simp only [hc, Bool.false_eq_true, if_false, Option.some.injEq] at h
      subst h
      exact ⟨rfl, rfl, rfl, rfl, rfl, rfl⟩
  | null => simp [normalizeDoc] at h
  | bool b => simp [normalizeDoc] at h
  | num n => simp [normalizeDoc] at h
  | str s => simp [normalizeDoc] at h
  | arr xs => simp [normalizeDoc] at h

theorem extractNotes_eq_amended (doc : JVal) :
    extractNotes doc = amendedNotesSpec doc := by
  unfold extractNotes amendedNotesSpec pyOr
  by_cases h1 : truthy (jget doc "notes_plain")
  · simp only [h1, if_true]
    cases jget doc "notes_plain" <;> simp [asStr]
  · simp only [h1, if_false]
    by_cases h2 : truthy (jget doc "notes_markdown")
    · simp only [h2, if_true]
      cases jget doc "notes_markdown" <;> simp [asStr]
    · simp only [h2, if_false]
      cases jget doc "notes" <;> simp [asStr]

/-- The per-entry property maintained by `load_cache`: every stored
entry's document has a truthy `id`, and its storage key is `str` of it. -/
def keyedById (kd : String × JVal) : Prop :=
  truthy (jget kd.2 "id") = true ∧ kd.1 = pyStr (jget kd.2 "id")

theorem dictInsert_prop {P : String × JVal → Prop} {m : List (String × JVal)}
    {k : String} {v : JVal} (hm : ∀ kd ∈ m, P kd) (hkv : P (k, v)) :
    ∀ kd ∈ dictInsert m k v, P kd := by
  intro kd hkd
  unfold dictInsert at hkd
  by_cases hex : m.any (fun p => p.1 == k)
  · simp only [hex, if_true, List.mem_map] at hkd
    obtain ⟨p, hp, hpe⟩ := hkd
    by_cases hpk : p.1 == k
    · simp only [hpk, if_true] at hpe
      exact hpe ▸ hkv
    · simp only [hpk, Bool.false_eq_true, if_false] at hpe
      exact hpe ▸ hm p hp
  · simp only [hex, Bool.false_eq_true, if_false, List.mem_append,
      List.mem_singleton] at hkd
    rcases hkd with h | h
    · exact hm kd h
    · exact h ▸ hkv

theorem loadDocs_aux :
    ∀ (src : List JVal) (acc : List (String × JVal)),
      (∀ kd ∈ acc, keyedById kd) →
      ∀ kd ∈ src.foldl loadStep acc, keyedById kd := by
  intro src
  induction src with
  | nil => intro acc h; simpa using h
  | cons d ds ih =>
    intro acc h
    rw [List.foldl_cons]
    apply ih
    intro kd hkd
    cases d with
    | obj fs =>
      rw [loadStep] at hkd
      by_cases hid : truthy (jget (JVal.obj fs) "id")
      · simp only [hid, if_true] at hkd
        exact dictInsert_prop h ⟨hid, rfl⟩ kd hkd
      · simp only [hid, Bool.false_eq_true, if_false] at hkd
        exact h kd hkd
    | null => exact h kd hkd
    | bool b => exact h kd hkd
    | num n => exact h kd hkd
    | str s => exact h kd hkd
    | arr xs => exact h kd hkd

theorem loadDocs_keyedById (src : List JVal) :
    ∀ kd ∈ loadDocs src, keyedById kd :=
  loadDocs_aux src [] (by simp)

/-! ## Concrete documents used by the counterexamples and witnesses -/

/-- A document that declares a `type` field whose value is the empty
string (falsy, and different from `"meeting"`). -/
def docFalsyType : JVal := .obj [("id", .str "d1"), ("type", .str "")]

/-- Two meeting documents with identical timestamps whose ids arrive in
descending order. -/
def srcEqualTs : List JVal :=
  [.obj [("id", .str "b"), ("created_at", .str "2025-01-01T00:00:00Z")],
   .obj [("id", .str "a"), ("created_at", .str "2025-01-01T00:00:00Z")]]

/-- The spec's end-to-end scenario document `e1`: its `people` field is
a flat list of participant records. -/
def docFlatPeople : JVal := .obj [("id", .str "e1"), ("title", .str "Test Meeting"),
  ("created_at", .str "2025-09-01T10:00:00Z"),
  ("people", .arr [.obj [("name", .str "Alice")], .obj [("name", .str "Bob")]]),
  ("notes_plain", .str "Notes here"), ("type", .str "meeting")]

/-- A document whose `notes_plain` holds a structured (dict) value while
`notes_markdown` holds a plain string. -/
def docShadowNotes : JVal := .obj [("id", .str "d1"),
  ("notes_plain", .obj [("type", .str "doc")]),
  ("notes_markdown", .str "Fallback text")]

/-- A document with no `id` field at all. -/
def docNoId : JVal := .obj [("title", .str "No id here")]

/-- A minimal meeting document used by the witnesses. -/
def docW : JVal := .obj [("id", .str "w1")]

/-- The meeting the adapter produces for `docW`. -/
def meetingW : Meeting :=
  { id := "w1", title := .str "Untitled Meeting", start_ts := "", end_ts := none,
    participants := [], platform := none, notes := none, overview := none,
    summary := none, folder_id := none, folder_name := none }

/-- The meeting the adapter produces for `docShadowNotes`. -/
def meetingShadowNotes : Meeting :=
  { id := "d1", title := .str "Untitled Meeting", start_ts := "", end_ts := none,
    participants := [], platform := none, notes := none, overview := none,
    summary := none, folder_id := none, folder_name := none }

/-! ## Claims -/

/-- C1 (corrected), counterexample to the claim as stated: the document
`docFalsyType` declares a `type` field (value `""`) that does not equal
`"meeting"`, yet a Meeting for it appears in the result. -/
theorem type_filter_claim_cex :
    jget docFalsyType "type" = JVal.str "" ∧
    jvalEqStr (jget docFalsyType "type") "meeting" = false ∧
    (adapterGetMeetings [docFalsyType]).map (fun m => m.id) = ["d1"] :=
  ⟨rfl, rfl, by decide⟩

/-- C1 (amended): over any loaded documents table, `get_meetings`
includes exactly one Meeting for each document that is a mapping whose
`type` field is absent, falsy (e.g. the empty string), or equal to
`"meeting"`, and none for any other document. -/
theorem type_filter_amended (docs : List (String × JVal)) :
    (getMeetingsDocs docs).length = docs.countP (fun kd => specMeetingIncluded kd.2) := by
  rw [getMeetingsDocs, length_sortDesc, rawMeetings, length_filterMap_eq_countP]
  congr 1
  funext kd
  rw [normalizeDoc_isSome]

/-- C2 (corrected), counterexample to the claim as stated: both meetings
share `start_ts`, yet they appear with ids `"b"` before `"a"`, which is
not ascending-id order. -/
theorem sort_tiebreak_claim_cex :
    (adapterGetMeetings srcEqualTs).map (fun m => (m.start_ts, m.id)) =
      [("2025-01-01T00:00:00Z", "b"), ("2025-01-01T00:00:00Z", "a")] ∧
    ¬ (("b" : String) ≤ "a") := by
  constructor
  · decide
  · intro h
    have hf := (strLt_false_iff_le "a" "b").mpr h
    have ht : strLt "a" "b" = true := by decide
    rw [ht] at hf
    simp at hf

/-- C2 (amended): `get_meetings` output is sorted by `start_ts`
descending (hence empty timestamps come last), and meetings with equal
`start_ts` keep the relative order in which their documents appear in
the loaded documents table (Python's stable sort), not ascending-id
order. -/
theorem sort_order_amended (src : List JVal) :
    List.Pairwise (fun a b => b.start_ts ≤ a.start_ts) (adapterGetMeetings src) ∧
    ∀ k : String,
      (adapterGetMeetings src).filter (fun m => m.start_ts == k) =
        (rawMeetings (loadDocs src)).filter (fun m => m.start_ts == k) := by
  constructor
  · exact sorted_sortDesc (fun m => m.start_ts) (rawMeetings (loadDocs src))
  · intro k
    exact filter_sortDesc (fun m => m.start_ts) k (rawMeetings (loadDocs src))

/-- C3 (code bug): for the spec's end-to-end document `e1`, whose
`people` field is a flat list `[{"name": "Alice"}, {"name": "Bob"}]`,
the adapter produces a Meeting with an empty participants list — not
`["Alice", "Bob"]` as the spec, the adapter's own GranolaParser-parity
purpose, and the repository's tests expect. -/
theorem flat_people_yields_empty_participants :
    (adapterGetMeetings [docFlatPeople]).map (fun m => (m.id, m.participants)) =
      [("e1", [])] := by
  decide

/-- C4 (corrected), counterexample to the claim as stated: the document
`docShadowNotes` has a structured value in `notes_plain` and the plain
string `"Fallback text"` in `notes_markdown`, yet its normalized `notes`
is absent — the earlier structured candidate does prevent the later
string candidate from being used. -/
theorem notes_shadowing_cex :
    jget docShadowNotes "notes_markdown" = JVal.str "Fallback text" ∧
    (adapterGetMeetings [docShadowNotes]).map (fun m => m.notes) = [none] :=
  ⟨rfl, by decide⟩

/-- C4 (amended): the normalized `notes` equals the first truthy
candidate among `notes_plain`, `notes_markdown`, `notes` when that
candidate is a plain string; when the first truthy candidate is
structured (non-string), `notes` is absent even if a later candidate is
a string, and a document whose only notes representation is structured
gets `notes` absent (never a stringified form). -/
theorem notes_extraction_amended (docKey : String) (doc : JVal) (m : Meeting)
    (h : normalizeDoc docKey doc = some m) :
    m.notes = amendedNotesSpec doc := by
  rw [(normalizeDoc_some h).2.1, extractNotes_eq_amended]

/-- C4 witness: the amended notes rule evaluated on `docShadowNotes`. -/
theorem notes_extraction_amended_witness :
    meetingShadowNotes.notes = amendedNotesSpec docShadowNotes :=
  notes_extraction_amended "d1" docShadowNotes meetingShadowNotes rfl

/-- C9 (corrected), counterexample to the claim as stated: a document
lacking an `id` does not yield a Meeting with a synthesized identifier —
`load_cache` drops it, so no Meeting for it appears at all. -/
theorem idless_doc_dropped_cex :
    loadDocs [docNoId] = [] ∧ adapterGetMeetings [docNoId] = [] :=
  ⟨rfl, rfl⟩

/-- C9 (amended): every entry of the loaded documents table has a truthy
`id` and is stored under key `str(id)`; consequently every normalized
Meeting's `id` equals the storage key of its document (which is `str` of
the document's own `id`).  Documents lacking a truthy `id` are dropped
at load time and never yield a Meeting, so the `doc_key` fallback of
`get_meetings` never synthesizes an identifier. -/
theorem meeting_id_amended (src : List JVal) :
    (∀ kd ∈ loadDocs src,
      truthy (jget kd.2 "id") = true ∧ kd.1 = pyStr (jget kd.2 "id")) ∧
    (∀ m ∈ adapterGetMeetings src, ∃ kd ∈ loadDocs src, m.id = kd.1) := by
  constructor
  · exact loadDocs_keyedById src
  · intro m hm
    rw [adapterGetMeetings, getMeetingsDocs, mem_sortDesc, rawMeetings] at hm
    obtain ⟨kd, hkd, hn⟩ := List.mem_filterMap.mp hm
    refine ⟨kd, hkd, ?_⟩
    obtain ⟨hid, hkey⟩ := loadDocs_keyedById src kd hkd
    have hmid := (normalizeDoc_some hn).1
    rw [hmid, pyOr, hid]
    exact (congrArg pyStr rfl).trans hkey.symm

/-- C9 witness: the amended statement evaluated on a one-document
source. -/
theorem meeting_id_amended_witness :
    (truthy (jget docW "id") = true ∧ "w1" = pyStr (jget docW "id")) ∧
    (∃ kd ∈ loadDocs [docW], meetingW.id = kd.1) :=
  ⟨(meeting_id_amended [docW]).1 ("w1", docW)
      (show ("w1", docW) ∈ loadDocs [docW] from by
        rw [show loadDocs [docW] = [("w1", docW)] from rfl]
        exact List.mem_singleton_self _),
   (meeting_id_amended [docW]).2 meetingW
      (show meetingW ∈ adapterGetMeetings [docW] from by
        rw [show adapterGetMeetings [docW] = [meetingW] from rfl]
        exact List.mem_singleton_self _)⟩

/-- C10 (confirmed): every Meeting the adapter produces has `platform`,
`end_ts`, `folder_id` and `folder_name` absent, because the adapter
builds its snapshot with empty side-tables and writes the literal
`None`s of adapter.py lines 139-146. -/
theorem side_table_fields_absent (src : List JVal) (m : Meeting)
    (h : m ∈ adapterGetMeetings src) :
    m.platform = none ∧ m.end_ts = none ∧
    m.folder_id = none ∧ m.folder_name = none := by
  rw [adapterGetMeetings, getMeetingsDocs, mem_sortDesc, rawMeetings] at h
  obtain ⟨kd, _, hn⟩ := List.mem_filterMap.mp h
  obtain ⟨_, _, hend, hplat, hfid, hfname⟩ := normalizeDoc_some hn
  exact ⟨hplat, hend, hfid, hfname⟩

/-- C10 witness: evaluated on a one-document source. -/
theorem side_table_fields_absent_witness :
    meetingW.platform = none ∧ meetingW.end_ts = none ∧
    meetingW.folder_id = none ∧ meetingW.folder_name = none :=
  side_table_fields_absent [docW] meetingW
    (show meetingW ∈ adapterGetMeetings [docW] from by
      rw [show adapterGetMeetings [docW] = [meetingW] from rfl]
      exact List.mem_singleton_self _)

theorem fetchAndCache_httpIssued (now : Int) (api : JVal) :
    (fetchAndCache now api).httpIssued = true := by
  simp only [fetchAndCache]
  split <;> rfl

/-- C5 (confirmed): with `force=False` and a cache file for the same
parameter fingerprint younger than the TTL — as a prior successful fetch
with identical parameters leaves it, holding a list-typed `docs` — no
HTTP call is issued and the cached docs are returned; with `force=True`,
or when the cache file is absent or at least TTL old, an HTTP fetch is
always issued. -/
theorem cache_freshness_policy (ttl now : Int)
    (store : Int × Int × Bool → Option CacheFile)
    (limit offset : Option Int) (panel : Bool) (api : JVal) :
    (∀ f cached ds,
      store (cacheKey (normLimit limit) (normOffset offset) panel) = some f →
      f.content = some cached →
      jgetD cached "docs" (.arr []) = .arr ds →
      now - f.mtime < ttl →
      getDocuments ttl now store limit offset panel false api =
        { result := .ok ds, httpIssued := false, newFile := some f }) ∧
    (∀ force : Bool,
      force = true ∨
        isCacheFresh ttl now
          (store (cacheKey (normLimit limit) (normOffset offset) panel)) = false →
      (getDocuments ttl now store limit offset panel force api).httpIssued = true) := by
  constructor
  · intro f cached ds hf hc hd hfresh
    simp [getDocuments, hf, hc, hd, isCacheFresh, hfresh]
  · intro force hcase
    rcases hcase with rfl | hstale
    · simp [getDocuments, fetchAndCache_httpIssued]
    · simp [getDocuments, hstale, fetchAndCache_httpIssued]

/-- The cache file a prior successful fetch leaves behind, used by the
C5 witness. -/
def cacheFileW : CacheFile :=
  { mtime := 100, content := some (.obj [("docs", .arr [.str "cached"])]) }

/-- An on-disk store with exactly one cache file, for the default
parameter fingerprint `(100, 0, true)`. -/
def storeW : Int × Int × Bool → Option CacheFile :=
  fun k => if k = (100, 0, true) then some cacheFileW else none

/-- C5 witness: at `now = 200` with TTL 86400 the file is fresh, so
`force=False` serves from it without HTTP while `force=True` fetches. -/
theorem cache_freshness_policy_witness :
    getDocuments 86400 200 storeW none none true false (.obj [("docs", .arr [])]) =
      { result := .ok [.str "cached"], httpIssued := false, newFile := some cacheFileW } ∧
    (getDocuments 86400 200 storeW none none true true (.obj [("docs", .arr [])])).httpIssued
      = true :=
  ⟨(cache_freshness_policy 86400 200 storeW none none true _).1 cacheFileW
      (.obj [("docs", .arr [.str "cached"])]) [.str "cached"] rfl rfl rfl (by decide),
   (cache_freshness_policy 86400 200 storeW none none true _).2 true (Or.inl rfl)⟩

/-- C6 (confirmed): a response sequence of only 429s makes
`_fetch_from_api` fail after exactly 3 attempts with the typed
rate-limit error, sleeping 1s then 2s between attempts; fewer than
3 429s followed by a success resolve successfully within 3 attempts. -/
theorem retry_bound_429 :
    (∀ resp : Nat → HttpResp, (∀ i, i < 3 → resp i = .err 429) →
      fetchFromApi resp =
        { result := .error (.rateLimit 3), attempts := 3, sleeps := [1, 2] }) ∧
    (∀ (resp : Nat → HttpResp) (k : Nat) (d : JVal), k < 3 →
      (∀ i, i < k → resp i = .err 429) → resp k = .ok d →
      (fetchFromApi resp).result = .ok d ∧
      (fetchFromApi resp).attempts = k + 1 ∧
      (fetchFromApi resp).attempts ≤ 3) := by
  constructor
  · intro resp h
    have h0 := h 0 (by omega)
    have h1 := h 1 (by omega)
    have h2 := h 2 (by omega)
    simp [fetchFromApi, fetchGo, h0, h1, h2, backoff]
  · intro resp k d hk h hok
    interval_cases k
    · simp [fetchFromApi, fetchGo, hok]
    · have h0 := h 0 (by omega)
      simp [fetchFromApi, fetchGo, h0, hok, backoff]
    · have h0 := h 0 (by omega)
      have h1 := h 1 (by omega)
      simp [fetchFromApi, fetchGo, h0, h1, hok, backoff]

/-- A simulated HTTP layer answering 429 to every attempt. -/
def respAll429 : Nat → HttpResp := fun _ => .err 429

/-- A simulated HTTP layer answering 429 once, then succeeding. -/
def resp429ThenOk : Nat → HttpResp := fun n => if n = 0 then .err 429 else .ok .null

/-- C6 witness: both halves evaluated on concrete response sequences. -/
theorem retry_bound_429_witness :
    fetchFromApi respAll429 =
      { result := .error (.rateLimit 3), attempts := 3, sleeps := [1, 2] } ∧
    (fetchFromApi resp429ThenOk).result = .ok .null ∧
    (fetchFromApi resp429ThenOk).attempts = 2 := by
  refine ⟨retry_bound_429.1 respAll429 (fun i _ => rfl), ?_, ?_⟩
  · exact (retry_bound_429.2 resp429ThenOk 1 .null (by omega)
      (fun i hi => by interval_cases i; rfl) rfl).1
  · exact (retry_bound_429.2 resp429ThenOk 1 .null (by omega)
      (fun i hi => by interval_cases i; rfl) rfl).2.1

/-- C7 (confirmed): a 401 or 403 on the first attempt raises the typed
auth error immediately — one attempt, no retry, no backoff sleep. -/
theorem auth_error_no_retry (resp : Nat → HttpResp) (code : Nat)
    (hcode : code = 401 ∨ code = 403) (h0 : resp 0 = .err code) :
    fetchFromApi resp =
      { result := .error (.auth code), attempts := 1, sleeps := [] } := by
  rcases hcode with rfl | rfl <;> simp [fetchFromApi, fetchGo, h0]

/-- A simulated HTTP layer answering 401 to every attempt. -/
def respAuth401 : Nat → HttpResp := fun _ => .err 401

/-- C7 witness: evaluated on a concrete 401 response. -/
theorem auth_error_no_retry_witness :
    fetchFromApi respAuth401 =
      { result := .error (.auth 401), attempts := 1, sleeps := [] } :=
  auth_error_no_retry respAuth401 401 (Or.inl rfl) rfl

theorem flatten_range_succ_shift {α : Type} (f : Nat → List α) (n : Nat) :
    ((List.range (n + 1)).map f).flatten =
      f 0 ++ ((List.range n).map (fun i => f (i + 1))).flatten := by
  rw [List.range_succ_eq_map]
  simp [List.map_map, Function.comp_def]

theorem getAllDocsLoop_pages (fetch : Nat → List JVal) :
    ∀ (n offset : Nat) (acc : List JVal),
      (∀ i, i < n → (fetch (offset + 100 * i)).length = 100) →
      (fetch (offset + 100 * n)).length < 100 →
      getAllDocsLoop fetch (n + 1) offset acc =
        some (acc ++ ((List.range (n + 1)).map (fun i => fetch (offset + 100 * i))).flatten) := by
  intro n
  induction n with
  | zero =>
    intro offset acc _ hshort
    rw [getAllDocsLoop]
    by_cases hb : (fetch offset).isEmpty
    · have hbe : fetch offset = [] := by simpa [List.isEmpty_iff] using hb
      simp [hb, hbe, List.range_succ]
    · have h100 : (fetch offset).length < 100 := by simpa using hshort
      simp [hb, h100, List.range_succ]
  | succ n ih =>
    intro offset acc hfull hshort
    have h0 : (fetch offset).length = 100 := by simpa using hfull 0 (by omega)
    have hne : (fetch offset).isEmpty = false := by
      cases hemp : (fetch offset).isEmpty
      · rfl
      · rw [List.isEmpty_iff] at hemp
        rw [hemp] at h0
        simp at h0
    have hge : ¬ ((fetch offset).length < 100) := by omega
    have hfull' : ∀ i, i < n → (fetch (offset + 100 + 100 * i)).length = 100 := by
      intro i hi
      have := hfull (i + 1) (by omega)
      rwa [show offset + 100 * (i + 1) = offset + 100 + 100 * i by ring] at this
    have hshort' : (fetch (offset + 100 + 100 * n)).length < 100 := by
      rwa [show offset + 100 * (n + 1) = offset + 100 + 100 * n by ring] at hshort
    have harith : ∀ i : Nat, offset + 100 * (i + 1) = offset + 100 + 100 * i := by
      intro i
      ring
    rw [getAllDocsLoop]
    simp only [hne, Bool.false_eq_true, if_false]
    rw [if_neg hge, ih (offset + 100) (acc ++ fetch offset) hfull' hshort']
    congr 1
    rw [flatten_range_succ_shift (fun i => fetch (offset + 100 * i)) (n + 1)]
    simp only [Nat.mul_zero, Nat.add_zero, harith, List.append_assoc]

/-- C8 (confirmed): `get_all_documents` fetches pages of size 100 at
offsets 0, 100, 200, …, stops at the first page that is empty or
shorter than 100, and returns the concatenation of all fetched pages in
fetch order. -/
theorem pagination_characterization (fetch : Nat → List JVal) (n : Nat)
    (hfull : ∀ i, i < n → (fetch (100 * i)).length = 100)
    (hshort : (fetch (100 * n)).length < 100) :
    getAllDocuments fetch (n + 1) =
      some (((List.range (n + 1)).map (fun i => fetch (100 * i))).flatten) := by
  have h := getAllDocsLoop_pages fetch n 0 []
    (by intro i hi; simpa using hfull i hi)
    (by simpa using hshort)
  simpa [getAllDocuments] using h

/-- A page oracle: one full page at offset 0, a short page at 100. -/
def fetchPagesW : Nat → List JVal :=
  fun off => if off = 0 then List.replicate 100 .null else [.str "tail"]

/-- C8 witness: the pagination loop on the concrete page oracle. -/
theorem pagination_characterization_witness :
    getAllDocuments fetchPagesW 2 =
      some (((List.range 2).map (fun i => fetchPagesW (100 * i))).flatten) :=
  pagination_characterization fetchPagesW 1
    (by intro i hi; interval_cases i; rfl)
    (by decide)

end Granola
